import Mathlib

set_option maxRecDepth 2000
set_option maxHeartbeats 2000000

/-!
# Verification of the symbolic tick-label core of `graph-plot`

A shallow embedding, over exact rationals, of the algorithmic core of the
repository: the rational-coefficient labeler and tick-lattice builder
(`_labels_and_ticks` in `customplot.py`, `graph_ticks` in `graph_plot.py`),
the axis limiter (`limit` in `customplot.py`, symbolic branch and entry
guard), and the discontinuity sanitiser (`sanitise` in `customplot.py`).

Floating-point values are modelled as exact rationals; the float constant
`np.pi` is modelled as the exact rational value of the IEEE-754 double
nearest to π.  NaN is modelled as the `none` of an `Option`.  Python
exceptions are modelled with `Except PyError`.
-/

namespace GraphPlot

/-- Python exceptions that the embedded code can raise. -/
inductive PyError where
  | valueError : PyError
  | zeroDivisionError : PyError
  | indexError : PyError
  deriving DecidableEq, Repr

/-- Equality of embedded fallible results is decidable. -/
instance instDecEqExcept {ε α : Type} [DecidableEq ε] [DecidableEq α] :
    DecidableEq (Except ε α) := fun a b =>
  match a, b with
  | .error e, .error f => decidable_of_iff (e = f) (by simp)
  | .ok x, .ok y => decidable_of_iff (x = y) (by simp)
  | .error _, .ok _ => .isFalse (by simp)
  | .ok _, .error _ => .isFalse (by simp)

/-- The exact rational value of the IEEE-754 binary64 constant `np.pi`
(π rounded to nearest double): 884279719003555 / 2^48. -/
def piQ : ℚ := 884279719003555 / 281474976710656

/-- `np.isclose(a, b)` with numpy's default tolerances
`rtol = 1e-05`, `atol = 1e-08`: `|a - b| <= atol + rtol * |b|`. -/
def npIsClose (a b : ℚ) : Bool := |a - b| ≤ 1 / 100000000 + |b| / 100000

/-- The continued-fraction loop of CPython's
`fractions.Fraction.limit_denominator`: starting from
`p0, q0, p1, q1 = 0, 1, 1, 0` and `n, d = numerator, denominator`,
repeatedly take `a = n // d`, stop when `q2 = q0 + a*q1` would exceed
`maxDen`, else shift the convergents.  Python's floor division `//`
coincides with Euclidean division here because `d > 0` throughout.
The recursion is driven by a fuel argument so that it reduces inside the
kernel; `d` decreases strictly on every iteration (`n - a*d = n % d < d`),
so any fuel at least the initial `d` makes the fuel bound unreachable. -/
def cfLoopGo (maxDen : ℕ) : ℕ → ℤ → ℤ → ℤ → ℤ → ℤ → ℤ → ℤ × ℤ × ℤ × ℤ
  | 0, p0, q0, p1, q1, _, _ => (p0, q0, p1, q1)
  | fuel + 1, p0, q0, p1, q1, n, d =>
    if d ≤ 0 then (p0, q0, p1, q1)
    else
      let a := n / d
      let q2 := q0 + a * q1
      if (maxDen : ℤ) < q2 then (p0, q0, p1, q1)
      else cfLoopGo maxDen fuel p1 q1 (p0 + a * p1) q2 d (n - a * d)

/-- The continued-fraction loop, started with enough fuel. -/
def cfLoop (maxDen : ℕ) (p0 q0 p1 q1 n d : ℤ) : ℤ × ℤ × ℤ × ℤ :=
  cfLoopGo maxDen (d.toNat + 1) p0 q0 p1 q1 n d

/-- CPython's `fractions.Fraction.limit_denominator(maxDen)`: return `c`
itself when its denominator is within the bound, else the closest rational
with denominator at most `maxDen`, via the continued-fraction bounds
(ties go to `bound2 = p1/q1`, exactly as in the CPython source). -/
def limitDenominator (c : ℚ) (maxDen : ℕ) : ℚ :=
  if c.den ≤ maxDen then c
  else
    let r := cfLoop maxDen 0 1 1 0 c.num (c.den : ℤ)
    let p0 := r.1
    let q0 := r.2.1
    let p1 := r.2.2.1
    let q1 := r.2.2.2
    let k := ((maxDen : ℤ) - q0) / q1
    let bound1 : ℚ := (p0 + k * p1 : ℤ) / (q0 + k * q1 : ℤ)
    let bound2 : ℚ := (p1 : ℚ) / (q1 : ℚ)
    if |bound2 - c| ≤ |bound1 - c| then bound2 else bound1

/-- The character of a decimal digit `d ≤ 9` (Python's `str` rendering of
a digit). -/
def digitChar : ℕ → Char
  | 0 => '0' | 1 => '1' | 2 => '2' | 3 => '3' | 4 => '4'
  | 5 => '5' | 6 => '6' | 7 => '7' | 8 => '8' | _ => '9'

/-- Accumulator version of decimal rendering: the digits of `n` in front
of `acc`.  Fuel-driven so that it reduces inside the kernel; `n / 10 < n`
whenever `n ≥ 10`, so any fuel at least `n` keeps the recursion faithful
(the fuel-0 case is only reached with `n = 0 < 10`, where it agrees with
the guarded case). -/
def natToDigitsGo : ℕ → ℕ → List Char → List Char
  | 0, n, acc => digitChar n :: acc
  | fuel + 1, n, acc =>
    if n < 10 then digitChar n :: acc
    else natToDigitsGo fuel (n / 10) (digitChar (n % 10) :: acc)

/-- Python's `f'{n}'` for a natural number: its decimal digit characters. -/
def natToDigits (n : ℕ) : List Char := natToDigitsGo n n []

/-- Splitting of the `symbol` argument of `_labels_and_ticks`
(`customplot.py`, lines 91–95): `s_num, s_den = symbol.split('/')`, and on
a `ValueError` (no slash, or more than one slash) fall back to
`(symbol, "1")`. -/
def splitSymbol (symbol : String) : String × String :=
  match symbol.splitOn "/" with
  | [a, b] => (a, b)
  | _ => (symbol, "1")

/-- The characters of the LaTeX piece `r'\dfrac{'` appended by the label
builder when a fraction construct is needed. -/
def dfracOpen : List Char := ['\\', 'd', 'f', 'r', 'a', 'c', '{']

/-- The label builder of `_labels_and_ticks` (`customplot.py`,
lines 104–139) for one coefficient, as the list of characters of the
joined builder pieces.  `value = Fraction(coefficient).limit_denominator()`
(CPython default bound 10^6), `num`/`den` its numerator and denominator;
a zero numerator yields the literal `$0$`; otherwise the pieces are
appended under exactly the source's conditions (the source's
`is_fraction` variable, `den != 1 or s_den != '1'`, is inlined at its
three use sites). -/
def labelChars (s_num s_den : String) (coefficient : ℚ) : List Char :=
  let value := limitDenominator coefficient 1000000
  let num := value.num
  let den := value.den
  if num = 0 then ['$', '0', '$']
  else
    let n := num.natAbs
    ['$']
      ++ (if num < 0 then ['-'] else [])
      ++ (if den ≠ 1 ∨ s_den ≠ "1" then dfracOpen else [])
      ++ (if n ≠ 1 then natToDigits n else [])
      ++ (if s_num ≠ "1" ∨ n = 1 then s_num.data else [])
      ++ (if den ≠ 1 ∨ s_den ≠ "1" then ['}', '{'] else [])
      ++ (if den ≠ 1 then natToDigits den else [])
      ++ (if s_den ≠ "1" then s_den.data else [])
      ++ (if den ≠ 1 ∨ s_den ≠ "1" then ['}'] else [])
      ++ ['$']

/-- The label of one coefficient, as a string. -/
def labelOf (s_num s_den : String) (coefficient : ℚ) : String :=
  String.mk (labelChars s_num s_den coefficient)

/-- Number of elements of `np.arange(start, stop, step)` for `step ≠ 0`:
`max 0 ⌈(stop - start) / step⌉`. -/
def arangeLen (start stop step : ℚ) : ℕ := (⌈(stop - start) / step⌉).toNat

/-- `np.arange(start, stop, step)`: the `arangeLen` values
`start + i * step`.  numpy raises `ZeroDivisionError` when `step == 0`;
that case is guarded by the caller `labels_and_ticks` below. -/
def arange (start stop step : ℚ) : List ℚ :=
  (List.range (arangeLen start stop step)).map (fun i : ℕ => start + (i : ℚ) * step)

/-- `_labels_and_ticks(first, last, step, symbol, symval)` of
`customplot.py` (lines 65–141): split the symbol, generate the
coefficients `np.arange(first, last + step / 2, step)` — numpy's
`ZeroDivisionError` on a zero step is modelled here — label each
coefficient, and return the labels together with `symval * coefficients`. -/
def labels_and_ticks (first last step : ℚ) (symbol : String) (symval : ℚ) :
    Except PyError (List String × List ℚ) :=
  let sp := splitSymbol symbol
  if step = 0 then .error .zeroDivisionError
  else
    let coefficients := arange first (last + step / 2) step
    let labels := coefficients.map (labelOf sp.1 sp.2)
    .ok (labels, coefficients.map (fun c => symval * c))

/-- `np.diff`: adjacent differences `y[i+1] - y[i]`. -/
def diffList (y : List ℚ) : List ℚ := List.zipWith (· - ·) y.tail y

/-- `sanitise(y, maximum_diff)` of `customplot.py` (lines 234–254) over
exact rationals, with NaN modelled as `none`: build the boolean mask
`np.abs(np.r_[[0], np.diff(y)]) > maximum_diff` and set the masked
entries to NaN.  numpy's boolean-mask assignment demands that the mask
and the array have the same length (`np.r_[[0], np.diff(y)]` has length
`max 1 (len y)`), raising `IndexError` otherwise. -/
def sanitise (y : List ℚ) (maximum_diff : ℚ) : Except PyError (List (Option ℚ)) :=
  let mask := (0 :: diffList y).map (fun d => decide (|d| > maximum_diff))
  if mask.length = y.length then
    .ok (List.zipWith (fun m v => if m then none else some v) mask y)
  else .error .indexError

/-- One write against the axis abstraction (the `set_*ticks`,
`set_*ticklabels` and `set_*lim` calls of `limit`). -/
inductive WriteEvent where
  | setTicks : List ℚ → WriteEvent
  | setLabels : List String → WriteEvent
  | setLimits : ℚ → ℚ → WriteEvent
  deriving DecidableEq, Repr

/-- The symbolic branch (case 1) of `limit` in `customplot.py`
(lines 258–330), together with the entry guard, as a pure function from
the arguments to the ordered trace of writes made against the axis
abstraction, paired with the boolean return value.

* Entry guard (line 284): `coordaxis == 'z' and ax.name != '3d'` returns
  `False` with no writes.
* None check (line 296): any of `first`, `last`, `step` missing raises
  `ValueError`.
* The lattice is built by `_labels_and_ticks` (line 299).
* Polar adjustments (lines 301–314): on the angular axis, when
  `first == 0` (exact comparison) and `np.isclose(last * v, 2 * np.pi)`,
  drop the last label and tick; on the radial axis, blank the first label
  if `first == 0` and always blank the last label (`labels[0]` and
  `labels[-1]` raise `IndexError` on an empty list).
* Writes (lines 316–318): ticks, then labels, then limits
  `(v * first, v * last)`. -/
def limit (axName coordaxis : String) (s : String) (v : ℚ)
    (first last step : Option ℚ) : Except PyError (Bool × List WriteEvent) :=
  if coordaxis = "z" ∧ axName ≠ "3d" then .ok (false, [])
  else
    match first, last, step with
    | some f, some la, some st =>
      match labels_and_ticks f la st s v with
      | .error e => .error e
      | .ok (labels, ticks) =>
        if axName = "polar" then
          if coordaxis = "x" ∧ f = 0 ∧ npIsClose (la * v) (2 * piQ) then
            .ok (true, [.setTicks ticks.dropLast, .setLabels labels.dropLast,
                        .setLimits (v * f) (v * la)])
          else if coordaxis = "y" then
            if labels.isEmpty then .error .indexError
            else
              let labels := if f = 0 then labels.set 0 "" else labels
              let labels := labels.set (labels.length - 1) ""
              .ok (true, [.setTicks ticks, .setLabels labels,
                          .setLimits (v * f) (v * la)])
          else
            .ok (true, [.setTicks ticks, .setLabels labels,
                        .setLimits (v * f) (v * la)])
        else
          .ok (true, [.setTicks ticks, .setLabels labels,
                      .setLimits (v * f) (v * la)])
    | _, _, _ => .error .valueError

/-- The label builder of `graph_ticks` in `graph_plot.py` (lines 113–148)
for one coefficient: like `labelChars` but with the `\frac` construct, a
hard-wired `\pi` symbol, and the closing pieces `'}'++den++'}$'` or `'$'`. -/
def graphTicksLabelChars (coefficient : ℚ) : List Char :=
  let value := limitDenominator coefficient 1000000
  let num := value.num
  let den := value.den
  if num = 0 then ['$', '0', '$']
  else
    let n := num.natAbs
    ['$']
      ++ (if num < 0 then ['-'] else [])
      ++ (if den ≠ 1 then ['\\', 'f', 'r', 'a', 'c', '{'] else [])
      ++ (if n = 1 then ['\\', 'p', 'i'] else natToDigits n ++ ['\\', 'p', 'i'])
      ++ (if den ≠ 1 then ['}', '{'] ++ natToDigits den ++ ['}', '$'] else ['$'])

/-- The list of label strings written by a `limit` call, when the call
returned normally and did write labels. -/
def writtenLabels (r : Except PyError (Bool × List WriteEvent)) : Option (List String) :=
  match r with
  | .ok (_, tr) =>
    (tr.filterMap (fun e => match e with | .setLabels ls => some ls | _ => none)).head?
  | .error _ => none

/-! ## A parser for the labels, modelled from the spec

The spec's round-trip property reads a label back "as sign ×
numerator/denominator × unit (applying the omission rules in reverse)".
The definitions below are modelled from those words: strip the math-mode
delimiters, read an optional leading minus sign, read the numerator
digits (an absent numeral means 1) from the numerator slot — the whole
label when there is no fraction construct, the part before `}{` when
there is — and likewise the denominator digits from the denominator
slot (absent means 1). -/

/-- The numeric value of a run of decimal digit characters. -/
def digitsVal (l : List Char) : ℕ := l.foldl (fun a ch => 10 * a + (ch.toNat - 48)) 0

/-- The longest digit run at the front of `l`, read as a number; an
empty run means the numeral was omitted and stands for `dflt`. -/
def leadingNat (l : List Char) (dflt : ℕ) : ℕ :=
  if (l.takeWhile Char.isDigit).isEmpty then dflt
  else digitsVal (l.takeWhile Char.isDigit)

/-- Is a character different from the closing brace? -/
def neRBrace (ch : Char) : Bool := ch ≠ '}'

/-- Parse the part of a label between the dollar delimiters and after
the optional sign: either a `\dfrac{...}{...}` construct, whose two
slots hold the numerator and denominator digit runs, or a bare
numerator slot with denominator 1. -/
def parseBody (neg : Bool) (m : List Char) : Option (Bool × ℕ × ℕ) :=
  if dfracOpen.isPrefixOf m then
    let rest2 := (m.drop 7).dropWhile neRBrace
    if rest2.head? = some '}' ∧ rest2.tail.head? = some '{' then
      some (neg, leadingNat ((m.drop 7).takeWhile neRBrace) 1,
            leadingNat (rest2.tail.tail.takeWhile neRBrace) 1)
    else none
  else
    some (neg, leadingNat m 1, 1)

/-- Parse the part of a label between the dollar delimiters: an optional
leading minus sign, then the body. -/
def parseMid (mid : List Char) : Option (Bool × ℕ × ℕ) :=
  if mid.head? = some '-' then parseBody true mid.tail else parseBody false mid

/-- Parse a label: a leading and a trailing `$`, and the middle. -/
def parseLabel (s : List Char) : Option (Bool × ℕ × ℕ) :=
  match s with
  | '$' :: rest => if rest.getLast? = some '$' then parseMid rest.dropLast else none
  | _ => none

/-- The coefficient a label denotes: sign × numerator / denominator. -/
def parseCoefficient (s : List Char) : Option ℚ :=
  (parseLabel s).map (fun t => (if t.1 then (-1 : ℚ) else 1) * (t.2.1 : ℚ) / (t.2.2 : ℚ))

/-! ### Digit rendering facts -/

/-- The digit characters are digits. -/
theorem digitChar_isDigit (m : ℕ) (hm : m < 10) : (digitChar m).isDigit = true := by
  interval_cases m <;> decide

/-- Reading a single digit character back. -/
theorem digitsVal_digitChar (m : ℕ) (hm : m < 10) : digitsVal [digitChar m] = m := by
  interval_cases m <;> decide

/-- Appending one digit multiplies the value by ten and adds it. -/
theorem digitsVal_append_digit (l : List Char) (ch : Char) :
    digitsVal (l ++ [ch]) = 10 * digitsVal l + (ch.toNat - 48) := by
  unfold digitsVal
  rw [List.foldl_append]
  rfl

/-- A digit character is none of the structural characters of a label. -/
theorem isDigit_ne (ch : Char) (h : ch.isDigit = true) :
    ch ≠ '}' ∧ ch ≠ '{' ∧ ch ≠ '-' ∧ ch ≠ '\\' ∧ ch ≠ '$' := by
  refine ⟨?_, ?_, ?_, ?_, ?_⟩ <;> rintro rfl <;> exact absurd h (by decide)

/-- `natToDigitsGo` with enough fuel produces the digits of `n` in front
of the accumulator: a nonempty run of digit characters whose value is
`n`. -/
theorem natToDigitsGo_spec :
    ∀ (fuel n : ℕ) (acc : List Char), n ≤ fuel →
      ∃ ds : List Char, natToDigitsGo fuel n acc = ds ++ acc ∧ ds ≠ [] ∧
        (∀ ch ∈ ds, ch.isDigit = true) ∧ digitsVal ds = n := by
  intro fuel
  induction fuel with
  | zero =>
    intro n acc hn
    have hn0 : n = 0 := Nat.le_zero.mp hn
    subst hn0
    refine ⟨[digitChar 0], rfl, by simp, ?_, by decide⟩
    intro ch hch
    simp only [List.mem_singleton] at hch
    subst hch
    decide
  | succ fuel ih =>
    intro n acc hn
    by_cases h10 : n < 10
    · refine ⟨[digitChar n], ?_, by simp, ?_, digitsVal_digitChar n h10⟩
      · unfold natToDigitsGo
        rw [if_pos h10]
        rfl
      · intro ch hch
        simp only [List.mem_singleton] at hch
        subst hch
        exact digitChar_isDigit n h10
    · have hdiv : n / 10 ≤ fuel := by
        have := Nat.div_lt_self (show 0 < n by omega) (show 1 < 10 by omega)
        omega
      obtain ⟨ds, hds, hne, hdig, hval⟩ := ih (n / 10) (digitChar (n % 10) :: acc) hdiv
      refine ⟨ds ++ [digitChar (n % 10)], ?_, by simp, ?_, ?_⟩
      · unfold natToDigitsGo
        rw [if_neg h10, hds, List.append_assoc]
        rfl
      · intro ch hch
        rcases List.mem_append.mp hch with h | h
        · exact hdig ch h
        · simp only [List.mem_singleton] at h
          subst h
          exact digitChar_isDigit _ (Nat.mod_lt _ (by omega))
      · rw [digitsVal_append_digit, hval]
        have hd : (digitChar (n % 10)).toNat - 48 = n % 10 := by
          have hm : n % 10 < 10 := Nat.mod_lt _ (by omega)
          interval_cases h : n % 10 <;> simp_all <;> decide
        rw [hd]
        omega

/-- The decimal rendering of `n`: nonempty, all digits, reading back to
`n`. -/
theorem natToDigits_spec (n : ℕ) :
    natToDigits n ≠ [] ∧ (∀ ch ∈ natToDigits n, ch.isDigit = true) ∧
      digitsVal (natToDigits n) = n := by
  obtain ⟨ds, hds, hne, hdig, hval⟩ := natToDigitsGo_spec n n [] le_rfl
  unfold natToDigits
  rw [hds, List.append_nil]
  exact ⟨hne, hdig, hval⟩

/-! ### takeWhile and dropWhile over structured lists -/

/-- `takeWhile` passes over a block that satisfies the predicate. -/
theorem takeWhile_append_all {α : Type} (p : α → Bool) :
    ∀ (l r : List α), (∀ x ∈ l, p x = true) →
      (l ++ r).takeWhile p = l ++ r.takeWhile p := by
  intro l
  induction l with
  | nil => simp
  | cons a l ih =>
    intro r h
    rw [List.cons_append, List.takeWhile_cons_of_pos (h a (by simp)),
      ih r (fun x hx => h x (by simp [hx])), List.cons_append]

/-- `dropWhile` erases a block that satisfies the predicate. -/
theorem dropWhile_append_all {α : Type} (p : α → Bool) :
    ∀ (l r : List α), (∀ x ∈ l, p x = true) →
      (l ++ r).dropWhile p = r.dropWhile p := by
  intro l
  induction l with
  | nil => simp
  | cons a l ih =>
    intro r h
    rw [List.cons_append, List.dropWhile_cons_of_pos (h a (by simp)),
      ih r (fun x hx => h x (by simp [hx]))]

/-- `takeWhile` of a list that fails the predicate everywhere is empty. -/
theorem takeWhile_nil_of_all {α : Type} (p : α → Bool) (l : List α)
    (h : ∀ x ∈ l, p x = false) : l.takeWhile p = [] := by
  cases l with
  | nil => rfl
  | cons a l =>
    exact List.takeWhile_cons_of_neg (by rw [h a (by simp)]; exact Bool.false_ne_true)

/-! ### Reading the numerator and denominator slots back -/

/-- A digit rendering followed by digit-free material reads back as the
rendered number. -/
theorem leadingNat_digits_append (n : ℕ) (rest : List Char) (dflt : ℕ)
    (hrest : ∀ ch ∈ rest, ch.isDigit = false) :
    leadingNat (natToDigits n ++ rest) dflt = n := by
  obtain ⟨hne, hdig, hval⟩ := natToDigits_spec n
  unfold leadingNat
  rw [takeWhile_append_all _ _ _ hdig, takeWhile_nil_of_all _ _ hrest,
    List.append_nil, if_neg (by simpa [List.isEmpty_iff] using hne)]
  exact hval

/-- Digit-free material reads back as the omission default. -/
theorem leadingNat_default (l : List Char) (dflt : ℕ)
    (hl : ∀ ch ∈ l, ch.isDigit = false) : leadingNat l dflt = dflt := by
  unfold leadingNat
  rw [takeWhile_nil_of_all _ _ hl]
  rfl

/-- The numerator slot written by the labeler reads back as `n`, for a
unit numerator symbol that is either the literal `"1"` or digit-free. -/
theorem leadingNat_numStuff (n : ℕ) (s_num : String)
    (h : s_num = "1" ∨ ∀ ch ∈ s_num.data, ch.isDigit = false) :
    leadingNat ((if n ≠ 1 then natToDigits n else []) ++
      (if s_num ≠ "1" ∨ n = 1 then s_num.data else [])) 1 = n := by
  by_cases h1 : n = 1
  · rw [if_neg (by simp [h1]), if_pos (Or.inr h1), List.nil_append]
    rcases h with h | h
    · subst h
      rw [h1]
      decide
    · rw [leadingNat_default _ _ h]
      omega
  · rw [if_pos h1]
    by_cases h2 : s_num = "1"
    · rw [if_neg (by simp [h1, h2]), List.append_nil]
      have := leadingNat_digits_append n [] 1 (by simp)
      rwa [List.append_nil] at this
    · rw [if_pos (Or.inl h2)]
      exact leadingNat_digits_append n _ 1 (h.resolve_left h2)

/-- The denominator slot written by the labeler reads back as `d`, for a
unit denominator symbol that is either the literal `"1"` or digit-free. -/
theorem leadingNat_denStuff (d : ℕ) (s_den : String)
    (h : s_den = "1" ∨ ∀ ch ∈ s_den.data, ch.isDigit = false) :
    leadingNat ((if d ≠ 1 then natToDigits d else []) ++
      (if s_den ≠ "1" then s_den.data else [])) 1 = d := by
  by_cases h1 : d = 1
  · subst h1
    rw [if_neg (by simp), List.nil_append]
    by_cases h2 : s_den = "1"
    · rw [if_neg (by simp [h2])]
      decide
    · rw [if_pos h2]
      exact leadingNat_default _ _ (h.resolve_left h2)
  · rw [if_pos h1]
    by_cases h2 : s_den = "1"
    · rw [if_neg (by simp [h2]), List.append_nil]
      have := leadingNat_digits_append d [] 1 (by simp)
      rwa [List.append_nil] at this
    · rw [if_pos h2]
      exact leadingNat_digits_append d _ 1 (h.resolve_left h2)

/-! ### Computing the parser on the builder's output shapes -/

/-- The parser on a fraction-construct body: numerator slot before the
`}{`, denominator slot before the closing `}`. -/
theorem parseBody_frac (neg : Bool) (ns ds : List Char)
    (hns : ∀ ch ∈ ns, neRBrace ch = true) (hds : ∀ ch ∈ ds, neRBrace ch = true) :
    parseBody neg (dfracOpen ++ (ns ++ ('}' :: '{' :: (ds ++ ['}'])))) =
      some (neg, leadingNat ns 1, leadingNat ds 1) := by
  unfold parseBody
  rw [if_pos (List.isPrefixOf_iff_prefix.mpr (List.prefix_append _ _))]
  dsimp only
  rw [List.drop_left' (show dfracOpen.length = 7 from rfl),
    dropWhile_append_all _ _ _ hns, List.dropWhile_cons_of_neg (by decide)]
  dsimp only [List.head?_cons, List.tail_cons]
  rw [if_pos ⟨rfl, rfl⟩,
    takeWhile_append_all _ _ _ hns, List.takeWhile_cons_of_neg (by decide),
    List.append_nil, takeWhile_append_all _ _ _ hds,
    List.takeWhile_cons_of_neg (by decide), List.append_nil]

/-- The parser on a fraction-free body: the whole body is the numerator
slot, the denominator is 1. -/
theorem parseBody_nonfrac (neg : Bool) (m : List Char)
    (h : ∀ ch ∈ m, ch ≠ '{') :
    parseBody neg m = some (neg, leadingNat m 1, 1) := by
  unfold parseBody
  rw [if_neg ?hpre]
  case hpre =>
    intro hcon
    exact h '{' ((List.isPrefixOf_iff_prefix.mp hcon).subset (by decide)) rfl

/-- A leading minus sign is read as the sign and stripped. -/
theorem parseMid_minus (m : List Char) : parseMid ('-' :: m) = parseBody true m := by
  unfold parseMid
  simp only [List.head?_cons, List.tail_cons]
  rw [if_pos trivial]

/-- Without a leading minus sign, the body is parsed as nonnegative. -/
theorem parseMid_no_minus (m : List Char) (h : m.head? ≠ some '-') :
    parseMid m = parseBody false m := by
  unfold parseMid
  rw [if_neg h]

/-- A list none of whose members is `a` cannot have head `a`. -/
theorem head_ne_of_all {α : Type} (l : List α) (a : α)
    (h : ∀ x ∈ l, x ≠ a) : l.head? ≠ some a := by
  intro hc
  exact h a (List.mem_of_mem_head? (by rw [hc]; rfl)) rfl

/-- Unwrapping the dollar delimiters of a label. -/
theorem parseLabel_wrap (mid : List Char) :
    parseLabel ('$' :: (mid ++ ['$'])) = parseMid mid := by
  simp only [parseLabel]
  rw [List.getLast?_concat, if_pos rfl, List.dropLast_concat]

/-! ### Reassembling the coefficient -/

/-- Sign times magnitude over denominator rebuilds a negative rational. -/
theorem reconstruct_neg (c : ℚ) (h : c.num < 0) :
    (-1 : ℚ) * (c.num.natAbs : ℚ) / (c.den : ℚ) = c := by
  rw [Nat.cast_natAbs, abs_of_neg h]
  push_cast
  rw [neg_one_mul, neg_neg, Rat.num_div_den]

/-- Magnitude over denominator rebuilds a nonnegative rational. -/
theorem reconstruct_nonneg (c : ℚ) (h : ¬c.num < 0) :
    (1 : ℚ) * (c.num.natAbs : ℚ) / (c.den : ℚ) = c := by
  rw [Nat.cast_natAbs, abs_of_nonneg (not_lt.mp h), one_mul, Rat.num_div_den]

/-- C8: for every rational coefficient whose denominator is within the
approximation bound, and every unit whose symbols are parseable (each
symbol is either the literal `"1"` or free of digits, braces and — for
the numerator symbol — the minus sign), the label the builder produces,
parsed back as sign × numerator/denominator with the omission rules
applied in reverse, reconstructs the coefficient exactly. -/
theorem label_round_trip (s_num s_den : String) (c : ℚ)
    (hden : c.den ≤ 1000000)
    (hnum : s_num = "1" ∨ ∀ ch ∈ s_num.data,
      ch.isDigit = false ∧ ch ≠ '-' ∧ ch ≠ '{' ∧ ch ≠ '}')
    (hsden : s_den = "1" ∨ ∀ ch ∈ s_den.data,
      ch.isDigit = false ∧ ch ≠ '{' ∧ ch ≠ '}') :
    parseCoefficient (labelChars s_num s_den c) = some c := by
  have hval : limitDenominator c 1000000 = c := by
    unfold limitDenominator
    rw [if_pos hden]
  by_cases hz : c.num = 0
  · have h0 : labelChars s_num s_den c = ['$', '0', '$'] := by
      unfold labelChars
      dsimp only
      rw [hval, if_pos hz]
    rw [h0, Rat.num_eq_zero.mp hz]
    with_unfolding_all decide
  · have hnumD : s_num = "1" ∨ ∀ ch ∈ s_num.data, ch.isDigit = false :=
      hnum.imp id (fun h ch hch => (h ch hch).1)
    have hsdenD : s_den = "1" ∨ ∀ ch ∈ s_den.data, ch.isDigit = false :=
      hsden.imp id (fun h ch hch => (h ch hch).1)
    have hnsChars : ∀ ch ∈ ((if c.num.natAbs ≠ 1 then natToDigits c.num.natAbs else []) ++
        (if s_num ≠ "1" ∨ c.num.natAbs = 1 then s_num.data else [])),
        ch ≠ '-' ∧ ch ≠ '{' ∧ ch ≠ '}' := by
      intro ch hch
      rcases List.mem_append.mp hch with h | h
      · by_cases h1 : c.num.natAbs ≠ 1
        · rw [if_pos h1] at h
          have hd := isDigit_ne ch ((natToDigits_spec c.num.natAbs).2.1 ch h)
          exact ⟨hd.2.2.1, hd.2.1, hd.1⟩
        · rw [if_neg h1] at h
          simp at h
      · by_cases h2 : s_num ≠ "1" ∨ c.num.natAbs = 1
        · rw [if_pos h2] at h
          rcases hnum with hs | hs
          · rw [hs] at h
            have h' : ch ∈ ['1'] := h
            simp only [List.mem_singleton] at h'
            subst h'
            exact ⟨by decide, by decide, by decide⟩
          · exact ⟨(hs ch h).2.1, (hs ch h).2.2.1, (hs ch h).2.2.2⟩
        · rw [if_neg h2] at h
          simp at h
    have hnsBrace : ∀ ch ∈ ((if c.num.natAbs ≠ 1 then natToDigits c.num.natAbs else []) ++
        (if s_num ≠ "1" ∨ c.num.natAbs = 1 then s_num.data else [])),
        neRBrace ch = true := by
      intro ch h
      simpa [neRBrace] using (hnsChars ch h).2.2
    have hdsBrace : ∀ ch ∈ ((if c.den ≠ 1 then natToDigits c.den else []) ++
        (if s_den ≠ "1" then s_den.data else [])), neRBrace ch = true := by
      intro ch hch
      have hne : ch ≠ '}' := by
        rcases List.mem_append.mp hch with h | h
        · by_cases h1 : c.den ≠ 1
          · rw [if_pos h1] at h
            exact (isDigit_ne ch ((natToDigits_spec c.den).2.1 ch h)).1
          · rw [if_neg h1] at h
            simp at h
        · by_cases h2 : s_den ≠ "1"
          · rw [if_pos h2] at h
            exact (hsden.resolve_left h2 ch h).2.2
          · rw [if_neg h2] at h
            simp at h
      simpa [neRBrace] using hne
    by_cases hfr : c.den = 1 ∧ s_den = "1"
    · -- no fraction construct
      have hshape : labelChars s_num s_den c =
          '$' :: (((if c.num < 0 then ['-'] else []) ++
            ((if c.num.natAbs ≠ 1 then natToDigits c.num.natAbs else []) ++
              (if s_num ≠ "1" ∨ c.num.natAbs = 1 then s_num.data else []))) ++ ['$']) := by
        unfold labelChars
        dsimp only
        rw [hval, if_neg hz]
        have hnofr : ¬(c.den ≠ 1 ∨ s_den ≠ "1") := by simp [hfr.1, hfr.2]
        rw [if_neg hnofr, if_neg hnofr, if_neg hnofr,
          if_neg (show ¬c.den ≠ 1 by simp [hfr.1]),
          if_neg (show ¬s_den ≠ "1" by simp [hfr.2])]
        simp [List.append_assoc]
      rw [hshape]
      simp only [parseCoefficient]
      rw [parseLabel_wrap]
      by_cases hneg : c.num < 0
      · rw [if_pos hneg, List.singleton_append, parseMid_minus,
          parseBody_nonfrac _ _ (fun ch h => (hnsChars ch h).2.1),
          leadingNat_numStuff _ _ hnumD]
        show some ((-1 : ℚ) * (c.num.natAbs : ℚ) / ((1 : ℕ) : ℚ)) = some c
        rw [show ((1 : ℕ) : ℚ) = (c.den : ℚ) by rw [hfr.1]]
        exact congrArg some (reconstruct_neg c hneg)
      · rw [if_neg hneg, List.nil_append,
          parseMid_no_minus _ (head_ne_of_all _ _ (fun ch h => (hnsChars ch h).1)),
          parseBody_nonfrac _ _ (fun ch h => (hnsChars ch h).2.1),
          leadingNat_numStuff _ _ hnumD]
        show some ((1 : ℚ) * (c.num.natAbs : ℚ) / ((1 : ℕ) : ℚ)) = some c
        rw [show ((1 : ℕ) : ℚ) = (c.den : ℚ) by rw [hfr.1]]
        exact congrArg some (reconstruct_nonneg c hneg)
    · -- fraction construct
      have hfr' : c.den ≠ 1 ∨ s_den ≠ "1" := by
        rcases not_and_or.mp hfr with h | h
        · exact Or.inl h
        · exact Or.inr h
      have hshape : labelChars s_num s_den c =
          '$' :: (((if c.num < 0 then ['-'] else []) ++
            (dfracOpen ++
              (((if c.num.natAbs ≠ 1 then natToDigits c.num.natAbs else []) ++
                (if s_num ≠ "1" ∨ c.num.natAbs = 1 then s_num.data else [])) ++
                ('}' :: '{' ::
                  (((if c.den ≠ 1 then natToDigits c.den else []) ++
                    (if s_den ≠ "1" then s_den.data else [])) ++ ['}']))))) ++ ['$']) := by
        unfold labelChars
        dsimp only
        rw [hval, if_neg hz, if_pos hfr', if_pos hfr', if_pos hfr']
        simp [List.append_assoc]
      rw [hshape]
      simp only [parseCoefficient]
      rw [parseLabel_wrap]
      by_cases hneg : c.num < 0
      · rw [if_pos hneg, List.singleton_append, parseMid_minus,
          parseBody_frac _ _ _ hnsBrace hdsBrace,
          leadingNat_numStuff _ _ hnumD, leadingNat_denStuff _ _ hsdenD]
        show some ((-1 : ℚ) * (c.num.natAbs : ℚ) / (c.den : ℚ)) = some c
        exact congrArg some (reconstruct_neg c hneg)
      · rw [if_neg hneg, List.nil_append,
          parseMid_no_minus _ (by simp [dfracOpen]),
          parseBody_frac _ _ _ hnsBrace hdsBrace,
          leadingNat_numStuff _ _ hnumD, leadingNat_denStuff _ _ hsdenD]
        show some ((1 : ℚ) * (c.num.natAbs : ℚ) / (c.den : ℚ)) = some c
        exact congrArg some (reconstruct_nonneg c hneg)

/-- C8, witness: the coefficient −3/4 with the compound unit `π/γ` labels
as `$-\dfrac{3\pi}{4\gamma}$` and parses back to exactly −3/4. -/
theorem label_round_trip_witness :
    ((-3 / 4 : ℚ).den ≤ 1000000) ∧
      ("\\pi" = "1" ∨ ∀ ch ∈ "\\pi".data,
        ch.isDigit = false ∧ ch ≠ '-' ∧ ch ≠ '{' ∧ ch ≠ '}') ∧
      ("\\gamma" = "1" ∨ ∀ ch ∈ "\\gamma".data,
        ch.isDigit = false ∧ ch ≠ '{' ∧ ch ≠ '}') ∧
      parseCoefficient (labelChars "\\pi" "\\gamma" (-3 / 4)) = some (-3 / 4) :=
  ⟨by with_unfolding_all decide, Or.inr (by decide), Or.inr (by decide),
   label_round_trip "\\pi" "\\gamma" (-3 / 4) (by with_unfolding_all decide)
     (Or.inr (by decide)) (Or.inr (by decide))⟩

/-! ## Claim theorems -/

/-- C2, counterexample: on `[1,1,1,1,50,1,1,1]` with maximum permissible
derivative 5, `sanitise` does not return the sequence in which only the
element at index 4 is replaced by the undefined marker: the element at
index 5 is replaced as well. -/
theorem sanitise_spike_not_only_index4 :
    sanitise [1, 1, 1, 1, 50, 1, 1, 1] 5 ≠
      .ok [some 1, some 1, some 1, some 1, none, some 1, some 1, some 1] := by
  with_unfolding_all decide

/-- C2, amended: on `[1,1,1,1,50,1,1,1]` with maximum permissible
derivative 5, `sanitise` returns a same-length sequence in which exactly
the elements at indices 4 and 5 are replaced by the undefined marker
(both the jump onto the spike and the jump off it exceed the bound) and
every other element is unchanged. -/
theorem sanitise_spike_flags_indices_4_and_5 :
    sanitise [1, 1, 1, 1, 50, 1, 1, 1] 5 =
      .ok [some 1, some 1, some 1, some 1, none, none, some 1, some 1] := by
  with_unfolding_all decide

/-- C9: a coefficient whose rational approximation is zero is always
labelled with the bare zero label `$0$`, whatever the unit symbols are. -/
theorem zero_coefficient_bare_zero_label (s_num s_den : String) (c : ℚ)
    (h : (limitDenominator c 1000000).num = 0) :
    labelOf s_num s_den c = "$0$" := by
  unfold labelOf labelChars
  rw [if_pos h]

/-- C9, witness: coefficient 0 with the compound unit `π/γ` yields `$0$`. -/
theorem zero_coefficient_bare_zero_label_witness :
    (limitDenominator 0 1000000).num = 0 ∧
      labelOf (splitSymbol "\\pi/\\gamma").1 (splitSymbol "\\pi/\\gamma").2 0 = "$0$" :=
  ⟨by with_unfolding_all decide,
   zero_coefficient_bare_zero_label _ _ 0 (by with_unfolding_all decide)⟩

/-- C10: every label produced by either tick-label generator — the
`_labels_and_ticks` labeler of `customplot.py` for any unit, and the
`graph_ticks` labeler of `graph_plot.py` — begins and ends with the
math-mode delimiter `$`, the zero label included. -/
theorem labels_dollar_delimited (s_num s_den : String) (c : ℚ) :
    (labelChars s_num s_den c).head? = some '$' ∧
    (labelChars s_num s_den c).getLast? = some '$' ∧
    (graphTicksLabelChars c).head? = some '$' ∧
    (graphTicksLabelChars c).getLast? = some '$' := by
  unfold labelChars graphTicksLabelChars
  dsimp only
  refine ⟨?_, ?_, ?_, ?_⟩
  · split
    · rfl
    · simp [List.cons_append]
  · split
    · rfl
    · rw [List.getLast?_concat]
  · split
    · rfl
    · simp [List.cons_append]
  · split
    · rfl
    · simp [List.getLast?_append, apply_ite List.getLast?, List.getLast?_cons,
        List.getLast?_concat]

/-- C1: whenever `limit` returns normally having done real work in
symbolic mode, the trace of writes against the axis abstraction is
exactly tick positions first, then tick labels, then the numeric limits
`v * first` and `v * last`; in particular limits are never written
before ticks. -/
theorem limit_symbolic_write_order (axName coordaxis s : String) (v : ℚ)
    (first last step : Option ℚ) (tr : List WriteEvent)
    (h : limit axName coordaxis s v first last step = .ok (true, tr)) :
    ∃ t l f la, first = some f ∧ last = some la ∧
      tr = [.setTicks t, .setLabels l, .setLimits (v * f) (v * la)] := by
  unfold limit at h
  split at h
  · simp at h
  · split at h
    · split at h
      · simp at h
      · split at h
        · split at h
          · simp only [Except.ok.injEq, Prod.mk.injEq] at h
            exact ⟨_, _, _, _, rfl, rfl, h.2.symm⟩
          · split at h
            · split at h
              · simp at h
              · simp only [Except.ok.injEq, Prod.mk.injEq] at h
                exact ⟨_, _, _, _, rfl, rfl, h.2.symm⟩
            · simp only [Except.ok.injEq, Prod.mk.injEq] at h
              exact ⟨_, _, _, _, rfl, rfl, h.2.symm⟩
        · simp only [Except.ok.injEq, Prod.mk.injEq] at h
          exact ⟨_, _, _, _, rfl, rfl, h.2.symm⟩
    · simp at h

/-- C1, witness: a concrete symbolic call on a rectilinear axis writes
ticks, then labels, then limits. -/
theorem limit_symbolic_write_order_witness :
    ∃ t l f la, some (0 : ℚ) = some f ∧ some (1 : ℚ) = some la ∧
      ([.setTicks [0, 1], .setLabels ["$0$", "$\\pi$"], .setLimits 0 1] : List WriteEvent) =
        [.setTicks t, .setLabels l, .setLimits (1 * f) (1 * la)] :=
  limit_symbolic_write_order "rectilinear" "x" "\\pi" 1 (some 0) (some 1) (some 1) _
    (by with_unfolding_all decide)

/-- C7, counterexample: a symbolic call with `step = 0` is not rejected
by the `ValueError` validation guard; it reaches lattice construction,
where numpy's `arange` raises `ZeroDivisionError`. -/
theorem limit_step_zero_not_validation_error :
    limit "rectilinear" "x" "\\pi" piQ (some 0) (some 1) (some 0) =
        .error .zeroDivisionError ∧
      PyError.zeroDivisionError ≠ PyError.valueError :=
  ⟨by with_unfolding_all decide, by decide⟩

/-- C7, amended: the only validation `limit` performs in symbolic mode is
the `None` check on `first`, `last`, `step`; a zero `step` passes that
guard, lattice construction is attempted, and the call fails with the
`ZeroDivisionError` that numpy's `arange` raises inside
`_labels_and_ticks`. -/
theorem limit_step_zero_zero_division (axName coordaxis s : String) (v f la : ℚ)
    (hguard : ¬(coordaxis = "z" ∧ axName ≠ "3d")) :
    limit axName coordaxis s v (some f) (some la) (some 0) =
      .error .zeroDivisionError := by
  unfold limit
  rw [if_neg hguard]
  have hlt : labels_and_ticks f la 0 s v = .error .zeroDivisionError := by
    unfold labels_and_ticks
    simp
  dsimp only
  rw [hlt]

/-- C7, witness: the amended statement at a concrete rectilinear call. -/
theorem limit_step_zero_zero_division_witness :
    ¬("x" = "z" ∧ "rectilinear" ≠ "3d") ∧
      limit "rectilinear" "x" "\\pi" piQ (some 2) (some 3) (some 0) =
        .error .zeroDivisionError :=
  ⟨by decide,
   limit_step_zero_zero_division "rectilinear" "x" "\\pi" piQ 2 3 (by decide)⟩

/-- C4, counterexample: for `first = 0`, `last = 1`, `step = 2` the built
lattice has exactly one entry (numpy's `arange` length is the ceiling of
`(stop - start) / step`), not the `⌊(last - first) / step + 1/2⌋ + 1 = 2`
the claim states. -/
theorem labels_and_ticks_length_formula_counterexample :
    labels_and_ticks 0 1 2 "\\pi" piQ = .ok (["$0$"], [0]) ∧
      ((["$0$"] : List String).length : ℤ) ≠ ⌊((1 : ℚ) - 0) / 2 + 1 / 2⌋ + 1 := by
  constructor
  · with_unfolding_all decide
  · with_unfolding_all decide

/-- C4, amended: for every `first`, `last` and `step > 0`,
`_labels_and_ticks` returns labels and positions of equal length
`L = (⌈(last - first)/step + 1/2⌉).toNat` — the length of
`np.arange(first, last + step/2, step)` — which equals
`⌊(last - first)/step + 1/2⌋ + 1` except when `(last - first)/step + 1/2`
is an integer or the range is empty. -/
theorem labels_and_ticks_length (f la st : ℚ) (s : String) (v : ℚ)
    (hst : 0 < st) :
    ∃ labels ticks, labels_and_ticks f la st s v = .ok (labels, ticks) ∧
      labels.length = ticks.length ∧
      labels.length = (⌈(la - f) / st + 1 / 2⌉).toNat := by
  have hne : st ≠ 0 := ne_of_gt hst
  have hq : (la + st / 2 - f) / st = (la - f) / st + 1 / 2 := by
    field_simp
    ring
  refine ⟨(arange f (la + st / 2) st).map (labelOf (splitSymbol s).1 (splitSymbol s).2),
          (arange f (la + st / 2) st).map (fun c => v * c), ?_, ?_, ?_⟩
  · unfold labels_and_ticks
    rw [if_neg hne]
  · simp
  · rw [List.length_map]
    unfold arange
    rw [List.length_map, List.length_range]
    unfold arangeLen
    rw [hq]

/-- C4, witness: the amended statement at `first = 0`, `last = 2`,
`step = 1`. -/
theorem labels_and_ticks_length_witness :
    (0 : ℚ) < 1 ∧
      ∃ labels ticks, labels_and_ticks 0 2 1 "\\pi" piQ = .ok (labels, ticks) ∧
        labels.length = ticks.length ∧
        labels.length = (⌈((2 : ℚ) - 0) / 1 + 1 / 2⌉).toNat :=
  ⟨by norm_num, labels_and_ticks_length 0 2 1 "\\pi" piQ (by norm_num)⟩

/-- C5: in symbolic mode on the angular coordinate of a polar axis, when
the range starts at exactly 0 and `last * v` is `np.isclose` to `2π`,
`limit` writes exactly the built lattice minus its last (label, position)
pair. -/
theorem limit_polar_full_turn_drops_last (s : String) (v la step : ℚ)
    (labels : List String) (ticks : List ℚ)
    (hlt : labels_and_ticks 0 la step s v = .ok (labels, ticks))
    (hclose : npIsClose (la * v) (2 * piQ) = true) :
    limit "polar" "x" s v (some 0) (some la) (some step) =
      .ok (true, [.setTicks ticks.dropLast, .setLabels labels.dropLast,
                  .setLimits (v * 0) (v * la)]) := by
  unfold limit
  rw [if_neg (by simp)]
  dsimp only
  rw [hlt]
  dsimp only
  rw [if_pos rfl, if_pos ⟨rfl, rfl, hclose⟩]

/-- C5, witness: `first = 0`, `last = 2`, `step = 1/4` with the `π` unit
drops the ninth pair and keeps the labels of the eight coefficients
`0, 1/4, …, 7/4`. -/
theorem limit_polar_full_turn_drops_last_witness :
    labels_and_ticks 0 2 (1 / 4) "\\pi" piQ =
        .ok (["$0$", "$\\dfrac\x7b\\pi\x7d\x7b4\x7d$", "$\\dfrac\x7b\\pi\x7d\x7b2\x7d$",
              "$\\dfrac\x7b3\\pi\x7d\x7b4\x7d$", "$\\pi$", "$\\dfrac\x7b5\\pi\x7d\x7b4\x7d$",
              "$\\dfrac\x7b3\\pi\x7d\x7b2\x7d$", "$\\dfrac\x7b7\\pi\x7d\x7b4\x7d$", "$2\\pi$"],
             [piQ * 0, piQ * (1 / 4), piQ * (1 / 2), piQ * (3 / 4), piQ * 1,
              piQ * (5 / 4), piQ * (3 / 2), piQ * (7 / 4), piQ * 2]) ∧
      npIsClose (2 * piQ) (2 * piQ) = true ∧
      limit "polar" "x" "\\pi" piQ (some 0) (some 2) (some (1 / 4)) =
        .ok (true,
          [.setTicks ([piQ * 0, piQ * (1 / 4), piQ * (1 / 2), piQ * (3 / 4), piQ * 1,
              piQ * (5 / 4), piQ * (3 / 2), piQ * (7 / 4), piQ * 2] : List ℚ).dropLast,
           .setLabels (["$0$", "$\\dfrac\x7b\\pi\x7d\x7b4\x7d$", "$\\dfrac\x7b\\pi\x7d\x7b2\x7d$",
              "$\\dfrac\x7b3\\pi\x7d\x7b4\x7d$", "$\\pi$", "$\\dfrac\x7b5\\pi\x7d\x7b4\x7d$",
              "$\\dfrac\x7b3\\pi\x7d\x7b2\x7d$", "$\\dfrac\x7b7\\pi\x7d\x7b4\x7d$",
              "$2\\pi$"] : List String).dropLast,
           .setLimits (piQ * 0) (piQ * 2)]) ∧
      (["$0$", "$\\dfrac\x7b\\pi\x7d\x7b4\x7d$", "$\\dfrac\x7b\\pi\x7d\x7b2\x7d$",
        "$\\dfrac\x7b3\\pi\x7d\x7b4\x7d$", "$\\pi$", "$\\dfrac\x7b5\\pi\x7d\x7b4\x7d$",
        "$\\dfrac\x7b3\\pi\x7d\x7b2\x7d$", "$\\dfrac\x7b7\\pi\x7d\x7b4\x7d$",
        "$2\\pi$"] : List String).dropLast.length = 8 :=
  by
  have hsp : splitSymbol "\\pi" = ("\\pi", "1") := by with_unfolding_all decide
  have hc : arange 0 (2 + 1 / 4 / 2) (1 / 4) =
      [0, 1 / 4, 1 / 2, 3 / 4, 1, 5 / 4, 3 / 2, 7 / 4, 2] := by
    with_unfolding_all decide
  have h0 : labelOf "\\pi" "1" 0 = "$0$" := by with_unfolding_all decide
  have h1 : labelOf "\\pi" "1" (1 / 4) = "$\\dfrac\x7b\\pi\x7d\x7b4\x7d$" := by
    with_unfolding_all decide
  have h2 : labelOf "\\pi" "1" (1 / 2) = "$\\dfrac\x7b\\pi\x7d\x7b2\x7d$" := by
    with_unfolding_all decide
  have h3 : labelOf "\\pi" "1" (3 / 4) = "$\\dfrac\x7b3\\pi\x7d\x7b4\x7d$" := by
    with_unfolding_all decide
  have h4 : labelOf "\\pi" "1" 1 = "$\\pi$" := by with_unfolding_all decide
  have h5 : labelOf "\\pi" "1" (5 / 4) = "$\\dfrac\x7b5\\pi\x7d\x7b4\x7d$" := by
    with_unfolding_all decide
  have h6 : labelOf "\\pi" "1" (3 / 2) = "$\\dfrac\x7b3\\pi\x7d\x7b2\x7d$" := by
    with_unfolding_all decide
  have h7 : labelOf "\\pi" "1" (7 / 4) = "$\\dfrac\x7b7\\pi\x7d\x7b4\x7d$" := by
    with_unfolding_all decide
  have h8 : labelOf "\\pi" "1" 2 = "$2\\pi$" := by with_unfolding_all decide
  have hlab : ([0, 1 / 4, 1 / 2, 3 / 4, 1, 5 / 4, 3 / 2, 7 / 4, 2] : List ℚ).map
      (labelOf "\\pi" "1") =
      ["$0$", "$\\dfrac\x7b\\pi\x7d\x7b4\x7d$", "$\\dfrac\x7b\\pi\x7d\x7b2\x7d$",
       "$\\dfrac\x7b3\\pi\x7d\x7b4\x7d$", "$\\pi$", "$\\dfrac\x7b5\\pi\x7d\x7b4\x7d$",
       "$\\dfrac\x7b3\\pi\x7d\x7b2\x7d$", "$\\dfrac\x7b7\\pi\x7d\x7b4\x7d$", "$2\\pi$"] := by
    simp only [List.map_cons, List.map_nil, h0, h1, h2, h3, h4, h5, h6, h7, h8]
  have hlt : labels_and_ticks 0 2 (1 / 4) "\\pi" piQ =
      .ok (["$0$", "$\\dfrac\x7b\\pi\x7d\x7b4\x7d$", "$\\dfrac\x7b\\pi\x7d\x7b2\x7d$",
            "$\\dfrac\x7b3\\pi\x7d\x7b4\x7d$", "$\\pi$", "$\\dfrac\x7b5\\pi\x7d\x7b4\x7d$",
            "$\\dfrac\x7b3\\pi\x7d\x7b2\x7d$", "$\\dfrac\x7b7\\pi\x7d\x7b4\x7d$", "$2\\pi$"],
           [piQ * 0, piQ * (1 / 4), piQ * (1 / 2), piQ * (3 / 4), piQ * 1,
            piQ * (5 / 4), piQ * (3 / 2), piQ * (7 / 4), piQ * 2]) := by
    unfold labels_and_ticks
    dsimp only
    rw [if_neg (by norm_num), hsp]
    dsimp only
    rw [hc, hlab]
    simp only [List.map_cons, List.map_nil]
  exact ⟨hlt, by with_unfolding_all decide,
    limit_polar_full_turn_drops_last "\\pi" piQ 2 (1 / 4) _ _ hlt
      (by with_unfolding_all decide),
    by decide⟩

/-- C6, counterexample: a start within `np.isclose` tolerance of 0 but
not exactly 0, with an end exactly at a full turn, does not trigger the
angular-polar wraparound suppression: all 9 built labels are written,
none dropped. -/
theorem limit_polar_near_zero_start_no_suppression :
    npIsClose (1 / 100000000) 0 = true ∧ ((1 : ℚ) / 100000000) ≠ 0 ∧
      npIsClose (2 * piQ) (2 * piQ) = true ∧
      (labels_and_ticks (1 / 100000000) 2 1 "\\pi" piQ).toOption.map
          (fun p => p.1.length) = some 3 ∧
      (writtenLabels (limit "polar" "x" "\\pi" piQ (some (1 / 100000000)) (some 2)
          (some 1))).map List.length = some 3 := by
  refine ⟨?_, ?_, ?_, ?_, ?_⟩ <;> with_unfolding_all decide

/-- C6, amended: in the symbolic branch the end-of-full-turn comparison
is tolerant (`np.isclose`), but the start-of-range comparison is the
exact equality `first == 0`: with a nonzero start nothing is ever
dropped, and with a start of exactly 0 the last pair is dropped precisely
when `last * v` is within `np.isclose` tolerance of `2π`. -/
theorem limit_polar_zero_check_is_exact (s : String) (v la step f : ℚ)
    (labels : List String) (ticks : List ℚ)
    (hlt : labels_and_ticks f la step s v = .ok (labels, ticks))
    (hne : labels ≠ []) :
    (f ≠ 0 → limit "polar" "x" s v (some f) (some la) (some step) =
        .ok (true, [.setTicks ticks, .setLabels labels,
                    .setLimits (v * f) (v * la)])) ∧
    (f = 0 → (limit "polar" "x" s v (some f) (some la) (some step) =
        .ok (true, [.setTicks ticks.dropLast, .setLabels labels.dropLast,
                    .setLimits (v * f) (v * la)]) ↔
      npIsClose (la * v) (2 * piQ) = true)) := by
  constructor
  · intro hf
    unfold limit
    rw [if_neg (by simp)]
    dsimp only
    rw [hlt]
    dsimp only
    rw [if_pos rfl, if_neg (fun hc => hf hc.2.1), if_neg (by simp)]
  · intro hf
    subst hf
    constructor
    · intro hres
      by_contra hnc
      have hfull : limit "polar" "x" s v (some 0) (some la) (some step) =
          .ok (true, [.setTicks ticks, .setLabels labels,
                      .setLimits (v * 0) (v * la)]) := by
        unfold limit
        rw [if_neg (by simp)]
        dsimp only
        rw [hlt]
        dsimp only
        rw [if_pos rfl, if_neg (fun hc => hnc hc.2.2), if_neg (by simp)]
      rw [hfull] at hres
      simp only [Except.ok.injEq, Prod.mk.injEq, List.cons.injEq,
        WriteEvent.setLabels.injEq, WriteEvent.setTicks.injEq] at hres
      have hlab : labels = labels.dropLast := by tauto
      have hlablen := congrArg List.length hlab
      rw [List.length_dropLast] at hlablen
      have : labels.length ≠ 0 := fun h0 => hne (List.length_eq_zero.mp h0)
      omega
    · intro hclose
      unfold limit
      rw [if_neg (by simp)]
      dsimp only
      rw [hlt]
      dsimp only
      rw [if_pos rfl, if_pos ⟨rfl, rfl, hclose⟩]

/-- C6, witness: the amended statement at `first = 0`, `last = 2`,
`step = 1` with the `π` unit. -/
theorem limit_polar_zero_check_is_exact_witness :
    (((0 : ℚ) ≠ 0 → limit "polar" "x" "\\pi" piQ (some 0) (some 2) (some 1) =
        .ok (true, [.setTicks [piQ * 0, piQ * 1, piQ * 2],
                    .setLabels ["$0$", "$\\pi$", "$2\\pi$"],
                    .setLimits (piQ * 0) (piQ * 2)])) ∧
      ((0 : ℚ) = 0 → (limit "polar" "x" "\\pi" piQ (some 0) (some 2) (some 1) =
          .ok (true, [.setTicks ([piQ * 0, piQ * 1, piQ * 2] : List ℚ).dropLast,
                      .setLabels (["$0$", "$\\pi$", "$2\\pi$"] : List String).dropLast,
                      .setLimits (piQ * 0) (piQ * 2)]) ↔
        npIsClose (2 * piQ) (2 * piQ) = true))) :=
  by
  have hsp : splitSymbol "\\pi" = ("\\pi", "1") := by with_unfolding_all decide
  have hc : arange 0 (2 + 1 / 2) 1 = [0, 1, 2] := by with_unfolding_all decide
  have h0 : labelOf "\\pi" "1" 0 = "$0$" := by with_unfolding_all decide
  have h1 : labelOf "\\pi" "1" 1 = "$\\pi$" := by with_unfolding_all decide
  have h2 : labelOf "\\pi" "1" 2 = "$2\\pi$" := by with_unfolding_all decide
  have hlt : labels_and_ticks 0 2 1 "\\pi" piQ =
      .ok (["$0$", "$\\pi$", "$2\\pi$"], [piQ * 0, piQ * 1, piQ * 2]) := by
    unfold labels_and_ticks
    dsimp only
    rw [if_neg (by norm_num), hsp]
    dsimp only
    rw [hc]
    simp only [List.map_cons, List.map_nil, h0, h1, h2]
  exact limit_polar_zero_check_is_exact "\\pi" piQ 2 1 0 ["$0$", "$\\pi$", "$2\\pi$"]
    [piQ * 0, piQ * 1, piQ * 2] hlt (by decide)

/-- C3, counterexample: `sanitise` raises on the empty sequence (the
boolean mask `np.r_[[0], np.diff(y)]` has length 1, which numpy rejects
against an array of length 0), and a length-1 input with a negative
maximum permissible derivative does get its only element replaced. -/
theorem sanitise_empty_raises :
    sanitise ([] : List ℚ) 5 = .error .indexError ∧
      sanitise [3] (-1) = .ok [none] :=
  ⟨by with_unfolding_all decide, by with_unfolding_all decide⟩

/-- C3, amended: for every nonempty input, `sanitise` returns normally
with an output of exactly the input's length, and for a length-1 input
with a nonnegative maximum permissible derivative the single element is
not replaced; the empty input raises an `IndexError` instead. -/
theorem sanitise_nonempty_total (y : List ℚ) (maximum_diff : ℚ) (a : ℚ)
    (hne : y ≠ []) :
    ((sanitise y maximum_diff).toOption.map List.length = some y.length) ∧
    (y = [a] → 0 ≤ maximum_diff → sanitise y maximum_diff = .ok [some a]) := by
  constructor
  · have hmask : ((0 :: diffList y).map (fun d => decide (|d| > maximum_diff))).length
        = y.length := by
      rcases y with _ | ⟨b, ys⟩
      · exact absurd rfl hne
      · simp [diffList, List.length_zipWith]
        try omega
    unfold sanitise
    rw [if_pos hmask]
    exact congrArg some (by rw [List.length_zipWith, hmask, Nat.min_self])
  · intro hy hmd
    subst hy
    unfold sanitise
    rw [if_pos (by simp [diffList])]
    simp [diffList, abs_of_nonneg, not_lt.mpr hmd]

/-- C3, witness: the amended statement on the singleton input `[7]`. -/
theorem sanitise_nonempty_total_witness :
    ((sanitise [7] 5).toOption.map List.length = some 1) ∧
      (([(7 : ℚ)] : List ℚ) = [7] → (0 : ℚ) ≤ 5 → sanitise [7] 5 = .ok [some 7]) := by
  simpa using sanitise_nonempty_total [7] 5 7 (by decide)

end GraphPlot
